import Mathlib

/-!
Verification development for the RAG chatbot's indexing and retrieval
pipeline.  The repository ships a React frontend (views, context and API
client, embedded below from the TypeScript source) together with the
documentation of a Python backend; the backend modules themselves
(chunker, vector-store adapter, orchestrators) are not part of the source
tree, so those operations are modelled from the specification text and
marked as such in their doc comments.
-/

namespace Rag

/-! ## Chunker -/

/-- Fuel-indexed walk over the text: each step emits the `size`-character
window at the current position and advances by `stepPred + 1` characters.
The fuel only bounds the recursion; one unit per emitted window is always
enough because the walk consumes at least one character per step. -/
def chunkWindowsFuel (size stepPred : Nat) : Nat → List Char → List (List Char)
  | 0, _ => []
  | _, [] => []
  | fuel + 1, c :: cs =>
      (c :: cs).take size :: chunkWindowsFuel size stepPred fuel ((c :: cs).drop (stepPred + 1))

/-- Modelled from the spec: the chunker module (rag/utils in the README
layout) is absent from the source tree.  Per §4.1 the chunker walks the
text in windows of `chunk_size` characters advancing by
`chunk_size - overlap` each step; the final window may be shorter than
`chunk_size`.  Here `stepPred + 1` is the step, so the walk always
advances. -/
def chunkWindows (size stepPred : Nat) (l : List Char) : List (List Char) :=
  chunkWindowsFuel size stepPred l.length l

/-- Modelled from the spec: the error taxonomy's `ConfigError`
(fatal, caller-fixable, e.g. overlap >= chunk_size). -/
inductive ChunkFailure where
  | configError
deriving DecidableEq

/-- Modelled from the spec §4.1: `Chunk(text, chunk_size, overlap)` fails
with `ConfigError` unless `0 <= overlap < chunk_size` (the lower bound is
inherent in `Nat`), returns the empty sequence on empty or
whitespace-only input, and otherwise produces the overlapping windows. -/
def Chunk (text : List Char) (size ov : Nat) : Except ChunkFailure (List (List Char)) :=
  if ov < size then
    if text.all Char.isWhitespace then Except.ok []
    else Except.ok (chunkWindows size (size - ov - 1) text)
  else Except.error ChunkFailure.configError

/-- Concatenation of the chunks with the overlapping leading `ov`
characters of every chunk after the first stripped. -/
def joinStripped (ov : Nat) : List (List Char) → List Char
  | [] => []
  | c :: rest => c ++ (rest.map (fun ck => ck.drop ov)).flatten

/-- Characterisation of the window at position `i`: it is the
`size`-character slice of the text starting at offset `i * step`. -/
theorem chunkWindowsFuel_getElem (size s : Nat) :
    ∀ (i fuel : Nat) (l : List Char), l.length ≤ fuel →
      (chunkWindowsFuel size s fuel l)[i]? =
        if l.drop (i * (s + 1)) = [] then none
        else some ((l.drop (i * (s + 1))).take size) := by
  intro i
  induction i with
  | zero =>
    intro fuel l hfuel
    match fuel, l with
    | 0, [] => simp [chunkWindowsFuel]
    | 0, c :: cs => simp at hfuel
    | fuel + 1, [] => simp [chunkWindowsFuel]
    | fuel + 1, c :: cs => simp [chunkWindowsFuel]
  | succ i ih =>
    intro fuel l hfuel
    match fuel, l with
    | 0, [] => simp [chunkWindowsFuel]
    | 0, c :: cs => simp at hfuel
    | fuel + 1, [] => simp [chunkWindowsFuel]
    | fuel + 1, c :: cs =>
      rw [chunkWindowsFuel]
      simp only [List.getElem?_cons_succ]
      have hrest : ((c :: cs).drop (s + 1)).length ≤ fuel := by
        simp only [List.length_drop, List.length_cons] at hfuel ⊢
        omega
      rw [ih fuel ((c :: cs).drop (s + 1)) hrest, List.drop_drop]
      have harith : s + 1 + i * (s + 1) = (i + 1) * (s + 1) := by ring
      rw [harith]

/-- Window characterisation transported to `chunkWindows`. -/
theorem chunkWindows_getElem (size s : Nat) (i : Nat) (l : List Char) :
    (chunkWindows size s l)[i]? =
      if l.drop (i * (s + 1)) = [] then none
      else some ((l.drop (i * (s + 1))).take size) :=
  chunkWindowsFuel_getElem size s i l.length l (Nat.le_refl _)

/-- Stripping the first `ov` characters of every window and concatenating
recovers the text with its first `ov` characters removed. -/
theorem chunkWindowsFuel_stripAll (ov s : Nat) :
    ∀ (fuel : Nat) (l : List Char), l.length ≤ fuel →
      ((chunkWindowsFuel (s + 1 + ov) s fuel l).map (fun ck => ck.drop ov)).flatten = l.drop ov := by
  intro fuel
  induction fuel with
  | zero =>
    intro l hl
    have hnil : l = [] := List.eq_nil_of_length_eq_zero (Nat.le_zero.mp hl)
    subst hnil
    simp [chunkWindowsFuel]
  | succ fuel ih =>
    intro l hl
    match l with
    | [] => simp [chunkWindowsFuel]
    | c :: cs =>
      rw [chunkWindowsFuel]
      simp only [List.map_cons, List.flatten_cons]
      have hlen : ((c :: cs).drop (s + 1)).length ≤ fuel := by
        simp only [List.length_drop, List.length_cons] at hl ⊢
        omega
      rw [ih ((c :: cs).drop (s + 1)) hlen]
      rw [List.drop_take, List.drop_drop]
      have h1 : s + 1 + ov - ov = s + 1 := by omega
      rw [h1]
      have h3 : (c :: cs).drop (s + 1 + ov) = ((c :: cs).drop ov).drop (s + 1) := by
        rw [List.drop_drop]
        congr 1
        omega
      rw [h3]
      exact List.take_append_drop (s + 1) ((c :: cs).drop ov)

/-- C2 counterexample: the claim quantifies over every text, but a
whitespace-only text such as a single space yields the empty chunk
sequence (per the spec's own rule in §4.1), whose stripped concatenation
is empty and does not reconstruct the text. -/
theorem chunk_whitespace_not_reconstructed :
    Chunk [' '] 2 0 = Except.ok [] ∧ joinStripped 0 ([] : List (List Char)) ≠ [' '] := by
  constructor
  · rfl
  · decide

/-- C2 (amended): for every valid parameter pair and every text that is
not empty or whitespace-only, the chunks returned by `Chunk` reconstruct
the text when the overlapping `ov`-character lead of every chunk after
the first is stripped; chunk `i` is exactly the `size`-character window
of the text at offset `i * (size - ov)` (so chunks are contiguous and
ordered); and whenever a chunk is not cut short by the document boundary
its trailing `ov` characters coincide with the next chunk's leading `ov`
characters, i.e. adjacent chunks overlap by exactly `ov`. -/
theorem chunk_reconstructs (text : List Char) (size ov : Nat) (cs : List (List Char))
    (hov : ov < size)
    (hws : text.all Char.isWhitespace = false)
    (hok : Chunk text size ov = Except.ok cs) :
    joinStripped ov cs = text ∧
    (∀ i : Nat, i < cs.length →
        cs[i]? = some ((text.drop (i * (size - ov))).take size)) ∧
    (∀ i : Nat, ∀ ci ci1 : List Char,
        cs[i]? = some ci → cs[i + 1]? = some ci1 → ci.length = size →
        ci.drop (size - ov) = ci1.take ov ∧ (ci.drop (size - ov)).length = ov) := by
  have hsize : size = (size - ov - 1) + 1 + ov := by omega
  set s := size - ov - 1 with hs
  have hstep : size - ov = s + 1 := by omega
  have hcs : cs = chunkWindows size s text := by
    rw [Chunk, if_pos hov, hws] at hok
    simp only [Bool.false_eq_true, if_false] at hok
    exact (Except.ok.injEq _ _).mp hok.symm
  subst hcs
  refine ⟨?_, ?_, ?_⟩
  · match text, hws with
    | c :: cstext, hws =>
      rw [chunkWindows]
      have hlen : (c :: cstext).length ≤ (c :: cstext).length := Nat.le_refl _
      rw [List.length_cons, chunkWindowsFuel, joinStripped]
      rw [hsize]
      have hrest : ((c :: cstext).drop (s + 1)).length ≤ cstext.length := by
        simp only [List.length_drop, List.length_cons]
        omega
      rw [chunkWindowsFuel_stripAll ov s cstext.length ((c :: cstext).drop (s + 1)) hrest]
      rw [List.drop_drop]
      exact List.take_append_drop (s + 1 + ov) (c :: cstext)
  · intro i hi
    rw [chunkWindows_getElem, hstep]
    have hne : ¬ text.drop (i * (s + 1)) = [] := by
      intro hnil
      have h6 : (chunkWindows size s text)[i]? = none := by
        rw [chunkWindows_getElem, hnil]
        simp
      rw [List.getElem?_eq_none_iff] at h6
      omega
    rw [if_neg hne]
  · intro i ci ci1 h1 h2 hlen
    rw [chunkWindows_getElem] at h1 h2
    by_cases hd1 : text.drop (i * (s + 1)) = []
    · rw [if_pos hd1] at h1; exact absurd h1 (by simp)
    by_cases hd2 : text.drop ((i + 1) * (s + 1)) = []
    · rw [if_pos hd2] at h2; exact absurd h2 (by simp)
    rw [if_neg hd1] at h1
    rw [if_neg hd2] at h2
    have hci : ci = (text.drop (i * (s + 1))).take size := by
      exact (Option.some.injEq _ _).mp h1.symm
    have hci1 : ci1 = (text.drop ((i + 1) * (s + 1))).take size := by
      exact (Option.some.injEq _ _).mp h2.symm
    have hfull : i * (s + 1) + size ≤ text.length := by
      have := congrArg List.length hci
      simp only [List.length_take, List.length_drop] at this
      rw [hlen] at this
      omega
    subst hci hci1
    constructor
    · rw [hstep, List.drop_take, List.drop_drop, List.take_take]
      have e1 : size - (s + 1) = ov := by omega
      have e2 : i * (s + 1) + (s + 1) = (i + 1) * (s + 1) := by ring
      have e3 : min ov size = ov := by omega
      rw [e1, e2, e3]
    · rw [hstep]
      simp only [List.length_drop, List.length_take, List.length_drop]
      omega

/-- Witness for the amended C2 theorem on a concrete six-character text
with size 3 and overlap 1. -/
theorem chunk_reconstructs_witness :
    joinStripped 1 [['a', 'b', 'c'], ['c', 'd', 'e'], ['e', 'f']] = ['a', 'b', 'c', 'd', 'e', 'f'] := by
  have h := chunk_reconstructs ['a', 'b', 'c', 'd', 'e', 'f'] 3 1
    [['a', 'b', 'c'], ['c', 'd', 'e'], ['e', 'f']] (by decide) (by decide) (by rfl)
  exact h.1

/-- C3: `Chunk` fails with `ConfigError` exactly when the constraint
`0 <= overlap < chunk_size` is violated (with natural-number parameters
that is `overlap >= chunk_size`), and for valid parameters an empty or
whitespace-only input yields the empty sequence rather than an error. -/
theorem chunk_configError_iff (text : List Char) (size ov : Nat) :
    (Chunk text size ov = Except.error ChunkFailure.configError ↔ size ≤ ov) ∧
    (ov < size → text.all Char.isWhitespace = true → Chunk text size ov = Except.ok []) := by
  constructor
  · constructor
    · intro h
      by_contra hlt
      rw [Chunk, if_pos (by omega)] at h
      by_cases hw : text.all Char.isWhitespace = true
      · rw [hw] at h; simp at h
      · simp only [Bool.not_eq_true] at hw
        rw [hw] at h; simp at h
    · intro h
      rw [Chunk, if_neg (by omega)]
  · intro hlt hw
    rw [Chunk, if_pos hlt, hw]
    simp

/-- Witness for C3: size 100 with overlap 150 is a `ConfigError` (the
spec's own example), and a whitespace-only input with valid parameters
yields the empty sequence. -/
theorem chunk_configError_iff_witness :
    Chunk ['x'] 100 150 = Except.error ChunkFailure.configError ∧
    Chunk [' ', ' '] 100 10 = Except.ok [] := by
  constructor
  · exact (chunk_configError_iff ['x'] 100 150).1.mpr (by omega)
  · exact (chunk_configError_iff [' ', ' '] 100 10).2 (by omega) (by decide)

/-! ## Vector store adapter -/

/-- Modelled from the spec §3: the ephemeral per-query retrieval unit
carrying the payload fields and the similarity score computed by the
vector store against the query (scores modelled as rationals). -/
structure RetrievedResult where
  docId : String
  chunkIndex : Nat
  text : List Char
  score : ℚ
deriving DecidableEq

/-- Deterministic retrieval order of the spec §4.3: descending score,
ties broken by ascending chunk index and then ascending document id. -/
def ResultOrder (a b : RetrievedResult) : Prop :=
  b.score < a.score ∨
    (a.score = b.score ∧
      (a.chunkIndex < b.chunkIndex ∨
        (a.chunkIndex = b.chunkIndex ∧ a.docId ≤ b.docId)))

instance : DecidableRel ResultOrder := fun a b => by
  unfold ResultOrder
  infer_instance

instance : IsTotal RetrievedResult ResultOrder := by
  constructor
  intro a b
  unfold ResultOrder
  rcases lt_trichotomy a.score b.score with h | h | h
  · exact Or.inr (Or.inl h)
  · rcases Nat.lt_trichotomy a.chunkIndex b.chunkIndex with hc | hc | hc
    · exact Or.inl (Or.inr ⟨h, Or.inl hc⟩)
    · rcases le_total a.docId b.docId with hd | hd
      · exact Or.inl (Or.inr ⟨h, Or.inr ⟨hc, hd⟩⟩)
      · exact Or.inr (Or.inr ⟨h.symm, Or.inr ⟨hc.symm, hd⟩⟩)
    · exact Or.inr (Or.inr ⟨h.symm, Or.inl hc⟩)
  · exact Or.inl (Or.inl h)

instance : IsTrans RetrievedResult ResultOrder := by
  constructor
  intro a b c hab hbc
  unfold ResultOrder at hab hbc ⊢
  rcases hab with h1 | ⟨h1, h1'⟩
  · rcases hbc with h2 | ⟨h2, h2'⟩
    · exact Or.inl (lt_trans h2 h1)
    · exact Or.inl (h2 ▸ h1)
  · rcases hbc with h2 | ⟨h2, h2'⟩
    · exact Or.inl (h1 ▸ h2)
    · refine Or.inr ⟨h1.trans h2, ?_⟩
      rcases h1' with hi | ⟨hi, hid⟩
      · rcases h2' with hj | ⟨hj, hjd⟩
        · exact Or.inl (lt_trans hi hj)
        · exact Or.inl (hj ▸ hi)
      · rcases h2' with hj | ⟨hj, hjd⟩
        · exact Or.inl (hi ▸ hj)
        · exact Or.inr ⟨hi.trans hj, le_trans hid hjd⟩

/-- Modelled from the spec §4.3 and §9: `Search` keeps only candidates
whose score meets the threshold, sorts the survivors by the deterministic
retrieval order, and truncates to `top_k` afterwards (threshold
filtering happens before top-k truncation). -/
def Search (candidates : List RetrievedResult) (topK : Nat) (threshold : ℚ) :
    List RetrievedResult :=
  (List.insertionSort ResultOrder
    (candidates.filter (fun r => decide (threshold ≤ r.score)))).take topK

/-- C5: every `Search` result sequence is ordered by descending score
with ties broken by ascending chunk index then document id, has length
at most `top_k`, contains no result scoring below the threshold, and a
search against an empty collection returns the empty sequence. -/
theorem search_contract (candidates : List RetrievedResult) (topK : Nat) (threshold : ℚ) :
    (Search candidates topK threshold).Pairwise ResultOrder ∧
    (Search candidates topK threshold).length ≤ topK ∧
    (∀ r, r ∈ Search candidates topK threshold → threshold ≤ r.score) ∧
    Search [] topK threshold = [] := by
  refine ⟨?_, ?_, ?_, ?_⟩
  · exact List.Pairwise.sublist (List.take_sublist _ _)
      (List.sorted_insertionSort ResultOrder _)
  · exact List.length_take_le _ _
  · intro r hr
    have hsort : r ∈ List.insertionSort ResultOrder
        (candidates.filter (fun r => decide (threshold ≤ r.score))) :=
      List.take_subset _ _ hr
    have hfil : r ∈ candidates.filter (fun r => decide (threshold ≤ r.score)) :=
      (List.perm_insertionSort ResultOrder _).mem_iff.mp hsort
    have := (List.mem_filter.mp hfil).2
    exact of_decide_eq_true this
  · simp [Search]

/-- Witness for C5 on a concrete three-candidate collection with a tie
broken by chunk index. -/
theorem search_contract_witness :
    (Search [⟨"a", 3, ['x'], 1⟩, ⟨"b", 1, ['y'], 2⟩, ⟨"a", 0, ['z'], 2⟩] 2 2).Pairwise ResultOrder ∧
    (Search [⟨"a", 3, ['x'], 1⟩, ⟨"b", 1, ['y'], 2⟩, ⟨"a", 0, ['z'], 2⟩] 2 2).length ≤ 2 ∧
    (1 : ℚ) ≤ 2 := by
  have h := search_contract [⟨"a", 3, ['x'], 1⟩, ⟨"b", 1, ['y'], 2⟩, ⟨"a", 0, ['z'], 2⟩] 2 2
  refine ⟨h.1, h.2.1, by norm_num⟩

/-! ## Retrieval orchestrator -/

/-- Modelled from the spec §4.6 and §7: the deterministic
no-grounded-answer text returned, without invoking the LLM, when no
result clears the similarity threshold. -/
def noGroundedAnswerText : List Char :=
  ("No grounded answer: no indexed document passed the similarity threshold.").toList

/-- Outcome of one `Query` call: the answer text, the cited sources and
whether the external synthesis capability was invoked. -/
structure QueryOutcome where
  answer : List Char
  sources : List RetrievedResult
  usedSynthesis : Bool
deriving DecidableEq

/-- Modelled from the spec §4.6: the prompt is built deterministically
from a fixed template over the retrieved chunk texts in retrieval order,
followed by the question. -/
def buildPrompt (hits : List RetrievedResult) (question : List Char) : List Char :=
  (hits.map RetrievedResult.text).flatten ++ question

/-- Modelled from the spec §4.6: search the vector store; with zero hits
return the deterministic no-grounded-answer outcome with an empty source
list and no synthesis call, otherwise invoke the injected external
synthesis capability once and cite every retrieved chunk. -/
def runQuery (synthesize : List Char → List Char) (candidates : List RetrievedResult)
    (topK : Nat) (threshold : ℚ) (question : List Char) : QueryOutcome :=
  let hits := Search candidates topK threshold
  if hits.isEmpty then ⟨noGroundedAnswerText, [], false⟩
  else ⟨synthesize (buildPrompt hits question), hits, true⟩

/-- C1: when no retrieved result clears the threshold the query returns
the deterministic no-grounded-answer outcome with an empty source list
and without invoking synthesis (so no citation can be fabricated), and a
query outcome is grounded (non-empty source list) exactly when at least
one result cleared the threshold. -/
theorem query_grounding (synthesize : List Char → List Char)
    (candidates : List RetrievedResult) (topK : Nat) (threshold : ℚ) (question : List Char) :
    (Search candidates topK threshold = [] →
        runQuery synthesize candidates topK threshold question =
          ⟨noGroundedAnswerText, [], false⟩) ∧
    ((runQuery synthesize candidates topK threshold question).sources ≠ [] ↔
        Search candidates topK threshold ≠ []) := by
  constructor
  · intro hempty
    rw [runQuery]
    simp [hempty]
  · rw [runQuery]
    by_cases hempty : Search candidates topK threshold = []
    · simp [hempty]
    · simp [List.isEmpty_iff, hempty]

/-- Witness for C1: a single candidate scoring below the threshold
yields the deterministic ungrounded outcome, and a candidate meeting the
threshold yields a grounded outcome. -/
theorem query_grounding_witness :
    runQuery (fun p => p) [⟨"a", 0, ['x'], 0⟩] 5 1 ['q'] = ⟨noGroundedAnswerText, [], false⟩ ∧
    (runQuery (fun p => p) [⟨"a", 0, ['x'], 2⟩] 5 1 ['q']).sources ≠ [] := by
  constructor
  · exact (query_grounding (fun p => p) [⟨"a", 0, ['x'], 0⟩] 5 1 ['q']).1 (by rfl)
  · exact (query_grounding (fun p => p) [⟨"a", 0, ['x'], 2⟩] 5 1 ['q']).2.mpr (by decide)

/-! ## Indexing orchestrator -/

/-- Modelled from the spec §3: a document presented for indexing, with
its deterministic identity. -/
structure Document where
  docId : String
  source : String
  content : List Char
  url : String
deriving DecidableEq

/-- Modelled from the spec §3: the unit stored in the vector store,
keyed by the deterministic chunk id and carrying the payload. -/
structure VectorRecord where
  recId : String
  vec : List Int
  docId : String
  chunkIndex : Nat
  text : List Char
deriving DecidableEq

/-- Terminal statuses of one `IndexDocument` run (spec §4.5). -/
inductive IndexStatus where
  | complete
  | partialIndexed
  | failed
deriving DecidableEq

/-- Modelled from the spec §3: the per-document indexing result. -/
structure IndexingOutcome where
  status : IndexStatus
  chunksIndexed : Nat
deriving DecidableEq

/-- Modelled from the spec §9: the content hash used for idempotent
re-indexing is a deterministic function of the content; it is modelled by
the content itself, so hash equality coincides with content equality. -/
def contentHash (content : List Char) : List Char := content

/-- Modelled from the spec §9: deterministic chunk id built from the
document id and the chunk index. -/
def chunkIdOf (docId : String) (i : Nat) : String :=
  docId ++ "_" ++ toString i

/-- State of the external stores as seen by the orchestrator: the
metadata store's document registry (document id with content hash) and
the vector store's records. -/
structure PipelineStore where
  docs : List (String × List Char)
  vectors : List VectorRecord
deriving DecidableEq

/-- Modelled from the spec §4.3: `Upsert` is idempotent on the record
id, replacing the previous vector and payload for an existing id and
appending otherwise. -/
def upsertOne (vs : List VectorRecord) (r : VectorRecord) : List VectorRecord :=
  if vs.any (fun x => x.recId == r.recId) then
    vs.map (fun x => if x.recId == r.recId then r else x)
  else vs ++ [r]

/-- Vector records for the chunks of a document, in chunk order. -/
def recordsFor (embed : List Char → List Int) (d : Document) (cs : List (List Char)) :
    List VectorRecord :=
  cs.enum.map (fun p => ⟨chunkIdOf d.docId p.1, embed p.2, d.docId, p.1, p.2⟩)

/-- Modelled from the spec §4.5: the non-short-circuit path of
`IndexDocument`: chunk the content, embed the chunks (the external
embedding capability is an injected total function; per-batch failure
accounting is irrelevant to the idempotence path), upsert the chunk
records and persist the document record; `failed` when chunking fails or
produces zero chunks. -/
def indexFresh (embed : List Char → List Int) (size ov : Nat)
    (s : PipelineStore) (d : Document) : IndexingOutcome × PipelineStore :=
  match Chunk d.content size ov with
  | Except.error _ => (⟨IndexStatus.failed, 0⟩, s)
  | Except.ok [] => (⟨IndexStatus.failed, 0⟩, s)
  | Except.ok (c :: cs) =>
      (⟨IndexStatus.complete, (c :: cs).length⟩,
        ⟨(d.docId, contentHash d.content) :: s.docs.filter (fun p => !(p.1 == d.docId)),
          (recordsFor embed d (c :: cs)).foldl upsertOne s.vectors⟩)

/-- Modelled from the spec §4.5: compute the document id; if an
identical document (same id) was already indexed and the content hash
matches, short-circuit to `complete` with zero new chunks; otherwise
run the fresh-indexing path. -/
def IndexDocument (embed : List Char → List Int) (size ov : Nat)
    (s : PipelineStore) (d : Document) : IndexingOutcome × PipelineStore :=
  match s.docs.lookup d.docId with
  | some h =>
      if h = contentHash d.content then (⟨IndexStatus.complete, 0⟩, s)
      else indexFresh embed size ov s d
  | none => indexFresh embed size ov s d

/-- Short-circuit behaviour when the registry already holds the matching
content hash for the document id. -/
theorem indexDocument_short (embed : List Char → List Int) (size ov : Nat)
    (s : PipelineStore) (d : Document)
    (hlook : s.docs.lookup d.docId = some (contentHash d.content)) :
    IndexDocument embed size ov s d = (⟨IndexStatus.complete, 0⟩, s) := by
  rw [IndexDocument, hlook]
  simp

/-- Any completed `IndexDocument` call leaves the matching registry
entry for the document in the resulting store. -/
theorem indexDocument_registers (embed : List Char → List Int) (size ov : Nat)
    (s : PipelineStore) (d : Document)
    (hdone : (IndexDocument embed size ov s d).1.status = IndexStatus.complete) :
    ((IndexDocument embed size ov s d).2).docs.lookup d.docId = some (contentHash d.content) := by
  rw [IndexDocument] at hdone ⊢
  match hlook : s.docs.lookup d.docId with
  | some h =>
      by_cases hh : h = contentHash d.content
      · simp only [hlook, hh, if_pos rfl]
        rw [hh] at hlook
        exact hlook
      · simp only [hlook, if_neg hh] at hdone ⊢
        rw [indexFresh] at hdone ⊢
        match hch : Chunk d.content size ov with
        | Except.error e => rw [hch] at hdone; simp at hdone
        | Except.ok [] => rw [hch] at hdone; simp at hdone
        | Except.ok (c :: cs) =>
            simp [List.lookup]
  | none =>
      simp only [hlook] at hdone ⊢
      rw [indexFresh] at hdone ⊢
      match hch : Chunk d.content size ov with
      | Except.error e => rw [hch] at hdone; simp at hdone
      | Except.ok [] => rw [hch] at hdone; simp at hdone
      | Except.ok (c :: cs) =>
          simp [List.lookup]

/-- C4: `IndexDocument` is idempotent on unchanged documents: after any
call that completed for a document, a second call with the identical
document id and content short-circuits to `complete` with
`chunks_indexed = 0` and returns the store unchanged, so no vector
record is duplicated. -/
theorem indexDocument_idempotent (embed : List Char → List Int) (size ov : Nat)
    (s : PipelineStore) (d : Document)
    (hdone : (IndexDocument embed size ov s d).1.status = IndexStatus.complete) :
    IndexDocument embed size ov (IndexDocument embed size ov s d).2 d
      = (⟨IndexStatus.complete, 0⟩, (IndexDocument embed size ov s d).2) :=
  indexDocument_short embed size ov _ d
    (indexDocument_registers embed size ov s d hdone)

/-- Witness for C4 on a concrete three-character document indexed into
an empty store with size 2 and overlap 0. -/
theorem indexDocument_idempotent_witness :
    IndexDocument (fun _ => ([] : List Int)) 2 0
        (IndexDocument (fun _ => ([] : List Int)) 2 0 ⟨[], []⟩ ⟨"d1", "s", ['a', 'b', 'c'], ""⟩).2
        ⟨"d1", "s", ['a', 'b', 'c'], ""⟩
      = (⟨IndexStatus.complete, 0⟩,
          (IndexDocument (fun _ => ([] : List Int)) 2 0 ⟨[], []⟩ ⟨"d1", "s", ['a', 'b', 'c'], ""⟩).2) :=
  indexDocument_idempotent (fun _ => ([] : List Int)) 2 0 ⟨[], []⟩
    ⟨"d1", "s", ['a', 'b', 'c'], ""⟩ (by rfl)

/-! ## Frontend API client shapes -/

/-- Embedding of the TypeScript interface QueryRequest of the frontend
API client: query, session_id?, top_k?, filter_source?. -/
structure QueryRequest where
  query : String
  session_id : Option String
  top_k : Option Nat
  filter_source : Option String
deriving DecidableEq

/-- Embedding of the TypeScript interface Source of the frontend API
client: source, url, text, score, chunk_index. -/
structure Source where
  source : String
  url : String
  text : String
  score : ℚ
  chunk_index : Nat
deriving DecidableEq

/-- Embedding of the TypeScript interface QueryResponse of the frontend
API client: answer, sources, query, documents_retrieved,
processing_time_ms, status. -/
structure QueryResponse where
  answer : String
  sources : List Source
  query : String
  documents_retrieved : Nat
  processing_time_ms : ℚ
  status : String
deriving DecidableEq

/-- Field names of the QueryRequest interface, transcribed from the
frontend API client source. -/
def queryRequestFields : List String :=
  ["query", "session_id", "top_k", "filter_source"]

/-- Field names of the Source interface, transcribed from the frontend
API client source. -/
def sourceFields : List String :=
  ["source", "url", "text", "score", "chunk_index"]

/-- Field names of the QueryResponse interface, transcribed from the
frontend API client source. -/
def queryResponseFields : List String :=
  ["answer", "sources", "query", "documents_retrieved", "processing_time_ms", "status"]

/-- Stated from the claim's words: the request field names the spec
gives for the pipeline-facing query exchange. -/
def specQueryRequestFields : List String :=
  ["query", "session_id", "top_k", "filters"]

/-- Stated from the claim's words: the response field names the spec
gives for the pipeline-facing query exchange. -/
def specQueryResponseFields : List String :=
  ["answer", "sources", "latency_ms"]

/-- Stated from the claim's words: the per-source field names the spec
gives. -/
def specSourceFields : List String :=
  ["source", "url", "text", "score", "chunk_index"]

/-- C6 counterexample: the code's request filter field is named
filter_source, not filters, and the response carries
processing_time_ms (plus query, documents_retrieved and status) rather
than latency_ms, so neither field set matches the spec's. -/
theorem queryShape_mismatch :
    queryRequestFields ≠ specQueryRequestFields ∧
    queryResponseFields ≠ specQueryResponseFields ∧
    "filters" ∉ queryRequestFields ∧
    "latency_ms" ∉ queryResponseFields := by
  decide

/-- C6 (amended): the request carries exactly the fields query,
session_id (optional), top_k (optional) and filter_source (optional);
the response carries exactly answer, sources, query,
documents_retrieved, processing_time_ms and status; and each source
carries exactly source, url, text, score and chunk_index as the spec
states. -/
theorem queryShape_fields :
    queryRequestFields = ["query", "session_id", "top_k", "filter_source"] ∧
    queryResponseFields
      = ["answer", "sources", "query", "documents_retrieved", "processing_time_ms", "status"] ∧
    sourceFields = specSourceFields ∧
    "processing_time_ms" ∈ queryResponseFields := by
  decide

/-! ## Frontend indexing pipeline view -/

/-- Embedding of the TypeScript union PipelineStage of the indexing
view. -/
inductive PipelineStage where
  | idle
  | received
  | parsing
  | chunking
  | embedding
  | upserting
  | complete
  | error
deriving DecidableEq, Fintype

/-- String literal of each PipelineStage value as written in the
TypeScript union. -/
def PipelineStage.name : PipelineStage → String
  | PipelineStage.idle => "idle"
  | PipelineStage.received => "received"
  | PipelineStage.parsing => "parsing"
  | PipelineStage.chunking => "chunking"
  | PipelineStage.embedding => "embedding"
  | PipelineStage.upserting => "upserting"
  | PipelineStage.complete => "complete"
  | PipelineStage.error => "error"

/-- Stage and progress schedule of runPipelineAnimation in the indexing
view: the stages it sets, in order, with their progress percentages; the
final entry is complete on success and error on failure (the loop's
break after an error stage happens after the stage is set and the error
stage is the last entry, so the visited sequence is this list for either
outcome). -/
def animationStages (success : Bool) : List (PipelineStage × Nat) :=
  [(PipelineStage.received, 10), (PipelineStage.parsing, 25), (PipelineStage.chunking, 45),
    (PipelineStage.embedding, 70), (PipelineStage.upserting, 90),
    ((if success then PipelineStage.complete else PipelineStage.error), 100)]

/-- C7 counterexample: the second stage the view enters is parsing (the
claim says the run goes from received directly to chunked), the stage
chunked never occurs, and a failing run terminates in error, which is
none of complete, partial and failed. -/
theorem pipeline_stages_mismatch :
    ((animationStages true).map (fun p => PipelineStage.name p.1))[1]? = some "parsing" ∧
    "chunked" ∉ (animationStages true).map (fun p => PipelineStage.name p.1) ∧
    ((animationStages false).map (fun p => PipelineStage.name p.1)).getLast? = some "error" ∧
    "error" ∉ ["complete", "partial", "failed"] := by
  decide

/-- C7 (amended): for each indexing run the view's pipeline advances
through exactly the stages received, parsing, chunking, embedding,
upserting, in that order, and terminates in complete on success or error
on failure; no other stage is entered. -/
theorem pipeline_stages_order :
    ∀ success : Bool,
      (animationStages success).map (fun p => PipelineStage.name p.1)
        = ["received", "parsing", "chunking", "embedding", "upserting",
            if success then "complete" else "error"] ∧
      ((animationStages success).map (fun p => p.1)).getLast? =
        some (if success then PipelineStage.complete else PipelineStage.error) := by
  decide

/-! ## Frontend indexing context -/

/-- Status literals of the ActivityLog interface in the global
context. -/
inductive LogStatus where
  | success
  | failed
deriving DecidableEq

/-- Embedding of the ActivityLog interface of the global context: name,
time, duration, status, icon and the optional chunk count. -/
structure ActivityLog where
  name : String
  time : String
  duration : String
  status : LogStatus
  icon : String
  chunks : Option Nat
deriving DecidableEq

/-- Session statistics kept by the indexing context. -/
structure SessionStats where
  indexedCount : Nat
  totalChunks : Nat
deriving DecidableEq

/-- State handled by the indexing context provider: the activity-log
list and the session statistics. -/
structure IndexingState where
  activityLogs : List ActivityLog
  sessionStats : SessionStats
deriving DecidableEq

/-- Embedding of addActivityLog of the global context: prepend the log
to the first 49 previous entries, and on SUCCESS bump indexedCount by
one and totalChunks by the log's chunk count (0 when absent). -/
def addActivityLog (log : ActivityLog) (s : IndexingState) : IndexingState :=
  { activityLogs := log :: s.activityLogs.take 49,
    sessionStats :=
      if log.status = LogStatus.success then
        ⟨s.sessionStats.indexedCount + 1, s.sessionStats.totalChunks + log.chunks.getD 0⟩
      else s.sessionStats }

/-- C8: after addActivityLog the list holds at most 50 entries with the
new entry first, and the session statistics change exactly on SUCCESS
(indexedCount + 1, totalChunks + chunk count, 0 when the chunks field is
absent) and stay unchanged on FAILED. -/
theorem addActivityLog_contract (log : ActivityLog) (s : IndexingState) :
    (addActivityLog log s).activityLogs.length ≤ 50 ∧
    (addActivityLog log s).activityLogs.head? = some log ∧
    (log.status = LogStatus.success →
        (addActivityLog log s).sessionStats =
          ⟨s.sessionStats.indexedCount + 1, s.sessionStats.totalChunks + log.chunks.getD 0⟩) ∧
    (log.status = LogStatus.failed →
        (addActivityLog log s).sessionStats = s.sessionStats) := by
  refine ⟨?_, rfl, ?_, ?_⟩
  · simp only [addActivityLog, List.length_cons, List.length_take]
    omega
  · intro h
    simp [addActivityLog, h]
  · intro h
    have hne : ¬ log.status = LogStatus.success := by
      rw [h]
      intro hcon
      exact LogStatus.noConfusion hcon
    simp [addActivityLog, hne]

/-- Witness for C8 on a concrete SUCCESS log with 7 chunks over a state
with 2 indexed documents and 5 chunks. -/
theorem addActivityLog_contract_witness :
    (addActivityLog ⟨"doc", "t", "1s", LogStatus.success, "description", some 7⟩
        ⟨[], ⟨2, 5⟩⟩).activityLogs.length ≤ 50 ∧
    (addActivityLog ⟨"doc", "t", "1s", LogStatus.success, "description", some 7⟩
        ⟨[], ⟨2, 5⟩⟩).sessionStats = ⟨3, 12⟩ := by
  have h := addActivityLog_contract ⟨"doc", "t", "1s", LogStatus.success, "description", some 7⟩
    ⟨[], ⟨2, 5⟩⟩
  exact ⟨h.1, h.2.2.1 rfl⟩

/-- Result values of getStageStatus in the indexing view. -/
inductive StageStatus where
  | done
  | active
  | pending
deriving DecidableEq

/-- Index of a stage in the view's stageOrder list, with -1 for values
not in the list, mirroring JavaScript indexOf. -/
def stageIndexOf : PipelineStage → Int
  | PipelineStage.received => 0
  | PipelineStage.parsing => 1
  | PipelineStage.chunking => 2
  | PipelineStage.embedding => 3
  | PipelineStage.upserting => 4
  | PipelineStage.complete => 5
  | PipelineStage.idle => -1
  | PipelineStage.error => -1

/-- The stageOrder list of getStageStatus in the indexing view. -/
def stageOrder : List PipelineStage :=
  [PipelineStage.received, PipelineStage.parsing, PipelineStage.chunking,
    PipelineStage.embedding, PipelineStage.upserting, PipelineStage.complete]

/-- Embedding of getStageStatus of the indexing view, with the same
branch order as the TypeScript function. -/
def getStageStatus (stage currentStage : PipelineStage) : StageStatus :=
  let currentIndex := stageIndexOf currentStage
  let stageIndex := stageIndexOf stage
  if currentStage = PipelineStage.idle then StageStatus.pending
  else if currentStage = PipelineStage.error ∧ stageIndex ≤ currentIndex then StageStatus.done
  else if stageIndex < currentIndex then StageStatus.done
  else if stageIndex = currentIndex then StageStatus.active
  else StageStatus.pending

/-- Stated from the claim's words: pending when the current stage is
idle or error, otherwise done, active or pending according to the
stage's position relative to the current stage in the stage order. -/
def claimStageStatus (stage currentStage : PipelineStage) : StageStatus :=
  if currentStage = PipelineStage.idle ∨ currentStage = PipelineStage.error then
    StageStatus.pending
  else if stageIndexOf stage < stageIndexOf currentStage then StageStatus.done
  else if stageIndexOf stage = stageIndexOf currentStage then StageStatus.active
  else StageStatus.pending

/-- C9: for every stage in the view's stage order and every current
pipeline stage, getStageStatus returns exactly what the claim states:
pending when the current stage is idle or error, and otherwise done,
active or pending for stages earlier than, equal to, or later than the
current stage. -/
theorem getStageStatus_matches_claim :
    ∀ stage : PipelineStage, stage ∈ stageOrder →
      ∀ currentStage : PipelineStage,
        getStageStatus stage currentStage = claimStageStatus stage currentStage := by
  decide

/-- Witness for C9 at the chunking stage against the embedding current
stage. -/
theorem getStageStatus_matches_claim_witness :
    getStageStatus PipelineStage.chunking PipelineStage.embedding
      = claimStageStatus PipelineStage.chunking PipelineStage.embedding :=
  getStageStatus_matches_claim PipelineStage.chunking (by decide) PipelineStage.embedding

end Rag
